import Mathlib

/-!
Shallow embedding of `src/aiSearchDupes.py` (the snippet-extraction and
batch-duplicate-detection pipeline).  Python strings are modelled as
`List Char`; the filesystem as the list of existing paths; logging and
deletion as an explicit event trace.  The external collaborators (PyMuPDF
text extraction, the LLM completion) are modelled at their interface:
a document is `Option (List Char)` (`none` = extraction raised), the LLM
is an oracle function from the fingerprint mapping to the verdict text.
-/

namespace AiSearchDupes

/-- The ASCII apostrophe character (codepoint 39). -/
def qc : Char := Char.ofNat 39

/-- `leadsWith pre s` is true when `pre` is an initial segment of `s`. -/
def leadsWith : List Char → List Char → Bool
  | [], _ => true
  | _ :: _, [] => false
  | a :: as, b :: bs => a == b && leadsWith as bs

/-- Python `needle in hay` substring test. -/
def containsSub (needle : List Char) : List Char → Bool
  | [] => needle.isEmpty
  | c :: cs => leadsWith needle (c :: cs) || containsSub needle cs

/-- Worker for `pySplit`, fuel-recursive so that it reduces in the kernel. -/
def pySplitGo (sep : List Char) : Nat → List Char → List Char → List (List Char)
  | _, [], acc => [acc.reverse]
  | 0, s, acc => [acc.reverse ++ s]
  | f+1, c :: cs, acc =>
    if !sep.isEmpty && leadsWith sep (c :: cs) then
      acc.reverse :: pySplitGo sep f (List.drop sep.length (c :: cs)) []
    else
      pySplitGo sep f cs (c :: acc)

/-- Python `s.split(sep)` for a non-empty separator `sep`. -/
def pySplit (sep s : List Char) : List (List Char) := pySplitGo sep s.length s []

/-- Python `s.rstrip("'")`: remove every trailing apostrophe. -/
def pyRstripQ (s : List Char) : List Char :=
  (s.reverse.dropWhile (fun c => c == qc)).reverse

/-- Python `s.strip()`: remove leading and trailing whitespace. -/
def pyStrip (s : List Char) : List Char :=
  ((s.dropWhile Char.isWhitespace).reverse.dropWhile Char.isWhitespace).reverse

/-- A word character, the model of the regex class `\w`. -/
def isWordChar (c : Char) : Bool := c.isAlphanum || c == '_'

/-- Model of `re.findall(r'\w+', text)`: the maximal runs of word characters. -/
def findWords : List Char → List (List Char)
  | [] => []
  | c :: cs =>
    let r := findWords cs
    if isWordChar c then
      if isWordChar (cs.headD ' ') then
        match r with
        | [] => [[c]]
        | w :: ws => (c :: w) :: ws
      else [c] :: r
    else r

/-- A sentence-terminal character (`.`, `!` or `?`). -/
def isTerm (c : Char) : Bool := c == '.' || c == '!' || c == '?'

/-- Worker for `sentSplit`, fuel-recursive: splits at every whitespace run
that is preceded by a sentence-terminal character. -/
def sentSplitF : Nat → List Char → List (List Char)
  | _, [] => [[]]
  | 0, s => [s]
  | f+1, c :: cs =>
    if isTerm c && (cs.headD 'x').isWhitespace then
      [c] :: sentSplitF f (cs.dropWhile Char.isWhitespace)
    else
      match sentSplitF f cs with
      | [] => [[c]]
      | s :: ss => (c :: s) :: ss

/-- Model of `re.split(r'(?<=[.!?])\s+', s)`. -/
def sentSplit (s : List Char) : List (List Char) := sentSplitF s.length s

/-- Python `' '.join(ws)`. -/
def joinSpace : List (List Char) → List Char
  | [] => []
  | [w] => w
  | w :: ws => w ++ ' ' :: joinSpace ws

/-- Python slicing `l[:n]` where `n` may be `None` (take everything). -/
def pyTake (n : Option Nat) (l : List (List Char)) : List (List Char) :=
  match n with
  | none => l
  | some k => l.take k

/-- `get_text_snippet(text, num_sentences, num_words)` from the source:
the word-count policy when `num_words` is set, else the sentence-count
policy on the stripped text. -/
def get_text_snippet (text : List Char) (num_sentences num_words : Option Nat) :
    List Char :=
  match num_words with
  | some n => joinSpace ((findWords text).take n)
  | none => joinSpace (pyTake num_sentences (sentSplit (pyStrip text)))

/-- `extract_with_pymupdf(file_path, ...)`: the document is its first-page
text, or `none` when opening or reading raised; the exception is caught and
an empty snippet list returned. -/
def extract_with_pymupdf (doc : Option (List Char))
    (num_sentences num_words : Option Nat) : List (List Char) :=
  match doc with
  | none => []
  | some text => [get_text_snippet text num_sentences num_words]

/-- `extract_and_store_snippet` is a direct wrapper of `extract_with_pymupdf`. -/
def extract_and_store_snippet (doc : Option (List Char))
    (num_sentences num_words : Option Nat) : List (List Char) :=
  extract_with_pymupdf doc num_sentences num_words

/-- One step of the fingerprint-collection loop: if the returned snippet
list is non-empty its first element is stored under the file path, otherwise
the file is skipped with a warning. -/
def collectStep (num_sentences num_words : Option Nat)
    (m : List (List Char × List Char)) (pd : List Char × Option (List Char)) :
    List (List Char × List Char) :=
  match extract_and_store_snippet pd.2 num_sentences num_words with
  | [] => m
  | s :: _ => m ++ [(pd.1, s)]

/-- The fingerprint-collection loop of `process_pdfs_for_duplicates`. -/
def collectSnippets (docs : List (List Char × Option (List Char)))
    (num_sentences num_words : Option Nat) : List (List Char × List Char) :=
  docs.foldl (collectStep num_sentences num_words) []

/-- An observable action of the run: a successful `os.remove` (with its
`logging.info`), the `logging.error` of `delete_file`'s `except OSError`
branch, the `logging.error` of the report-parsing `except` branch, the
`logging.info` of the duplicate report, and the `logging.warning` emitted
when no snippet could be collected. -/
inductive Event
  | deleted (p : List Char)
  | logDeleteError (p : List Char)
  | logParseError
  | logReport
  | logWarnNoSnippets
deriving DecidableEq

/-- The paths passed to the deletion operation `delete_file`, whatever its
outcome. -/
def deletedPaths (evs : List Event) : List (List Char) :=
  evs.filterMap (fun e =>
    match e with
    | .deleted p => some p
    | .logDeleteError p => some p
    | _ => none)

/-- `delete_file(file_path)`: `os.remove` succeeds exactly when the path
exists; an `OSError` is caught and logged. Returns the new filesystem and
the emitted events. -/
def delete_file (fs : List (List Char)) (p : List Char) :
    List (List Char) × List Event :=
  if fs.contains p then (fs.erase p, [Event.deleted p])
  else (fs, [Event.logDeleteError p])

/-- The literal `" and "`. -/
def sAnd : List Char := " and ".toList

/-- The literal `"File '"` (with its trailing apostrophe). -/
def sFileQ : List Char := "File ".toList ++ [qc]

/-- The literal `" "`. -/
def sSpace : List Char := " ".toList

/-- The literal `"are duplicates"`. -/
def sAreDup : List Char := "are duplicates".toList

/-- `os.path.basename`: the part of the path after the last `/`. -/
def basename (p : List Char) : List Char := (pySplit ['/'] p).getLastD []

/-- The `try` body of the report-parsing loop: split the line on `" and "`,
take `parts[0].split("File '")[1].rstrip("'")` as the first basename and
`parts[1].split("File '")[1].split(" ")[0].rstrip("'")` as the second;
`none` models an `IndexError` raised by one of the subscript accesses. -/
def parseLine (line : List Char) : Option (List Char × List Char) :=
  let parts := pySplit sAnd line
  match (pySplit sFileQ (parts.headD [])).get? 1 with
  | none => none
  | some a =>
    let file1 := pyRstripQ a
    match parts.get? 1 with
    | none => none
    | some p1 =>
      match (pySplit sFileQ p1).get? 1 with
      | none => none
      | some b =>
        let file2 := pyRstripQ ((pySplit sSpace b).headD [])
        some (file1, file2)

/-- `next((path for path in pdf_snippets.keys() if os.path.basename(path) ==
name), None)`: the first key of the mapping whose basename equals `name`. -/
def findPath (snips : List (List Char × List Char)) (name : List Char) :
    Option (List Char) :=
  (snips.map Prod.fst).find? (fun p => basename p == name)

/-- One iteration of the report-parsing loop on a single line: lines without
the `"are duplicates"` marker are skipped; a raised parse is logged; the two
basenames are resolved against the mapping keys; the file resolved from the
second basename is deleted when that resolution is truthy and the path still
exists (the first resolution is computed but never consulted, as in the
source). -/
def handleLine (snips : List (List Char × List Char)) (fs : List (List Char))
    (line : List Char) : List (List Char) × List Event :=
  if containsSub sAreDup line then
    match parseLine line with
    | none => (fs, [Event.logParseError])
    | some (f1, f2) =>
      let _file1_path := findPath snips f1
      match findPath snips f2 with
      | none => (fs, [])
      | some p2 =>
        if !p2.isEmpty && fs.contains p2 then delete_file fs p2 else (fs, [])
  else (fs, [])

/-- Folding step threading the filesystem and accumulating events. -/
def stepLine (snips : List (List Char × List Char))
    (st : List (List Char) × List Event) (line : List Char) :
    List (List Char) × List Event :=
  let (fs', e) := handleLine snips st.1 line
  (fs', st.2 ++ e)

/-- The verdict-parsing and deletion phase of `process_pdfs_for_duplicates`:
nothing at all happens unless `delete_dupes` is set; otherwise the verdict is
split into lines and each line handled in order. -/
def resolveDeletions (verdict : List Char) (snips : List (List Char × List Char))
    (deleteEnabled : Bool) (fs : List (List Char)) :
    List (List Char) × List Event :=
  if deleteEnabled then (pySplit ['\n'] verdict).foldl (stepLine snips) (fs, [])
  else (fs, [])

/-- The structured duplicate pairs the parsing loop extracts from a verdict:
one pair per line carrying the `"are duplicates"` marker whose subscript
accesses do not raise. -/
def extractPairs (verdict : List Char) : List (List Char × List Char) :=
  (pySplit ['\n'] verdict).filterMap (fun line =>
    if containsSub sAreDup line then parseLine line else none)

/-- Outcome of one run: final filesystem, event trace, and whether the LLM
completion capability (`check_duplicates_using_ai`) was invoked. -/
structure RunResult where
  fs : List (List Char)
  events : List Event
  llmCalled : Bool
deriving DecidableEq

/-- `process_pdfs_for_duplicates`: collect the fingerprint mapping; when it
is empty, log a warning and stop without calling the LLM; otherwise call the
LLM once (the `oracle`), log the report, and run the deletion phase. -/
def process_pdfs_for_duplicates (docs : List (List Char × Option (List Char)))
    (num_sentences num_words : Option Nat) (delete_dupes : Bool)
    (oracle : List (List Char × List Char) → List Char)
    (fs0 : List (List Char)) : RunResult :=
  let m := collectSnippets docs num_sentences num_words
  if m.isEmpty then
    { fs := fs0, events := [Event.logWarnNoSnippets], llmCalled := false }
  else
    let verdict := oracle m
    let r := resolveDeletions verdict m delete_dupes fs0
    { fs := r.1, events := Event.logReport :: r.2, llmCalled := true }

/-! ## Claim C1 -/

/-- Claim C1: with `deleteEnabled = false`, the deletion phase is a no-op
and `delete_file` is never invoked, whatever the verdict text is: the final
filesystem equals the initial one, no path is ever passed to the deletion
operation, and `resolveDeletions` itself returns the filesystem unchanged
with no events. -/
theorem C1_no_deletion_when_delete_disabled
    (docs : List (List Char × Option (List Char)))
    (num_sentences num_words : Option Nat)
    (oracle : List (List Char × List Char) → List Char)
    (fs0 : List (List Char)) (verdict : List Char)
    (snips : List (List Char × List Char)) (fs : List (List Char)) :
    (process_pdfs_for_duplicates docs num_sentences num_words false oracle fs0).fs
        = fs0 ∧
    deletedPaths
        (process_pdfs_for_duplicates docs num_sentences num_words false
          oracle fs0).events = [] ∧
    resolveDeletions verdict snips false fs = (fs, []) := by
  refine ⟨?_, ?_, ?_⟩
  · unfold process_pdfs_for_duplicates
    by_cases h : (collectSnippets docs num_sentences num_words).isEmpty
    · simp [h]
    · simp [h, resolveDeletions]
  · unfold process_pdfs_for_duplicates
    by_cases h : (collectSnippets docs num_sentences num_words).isEmpty
    · simp [h, deletedPaths]
    · simp [h, resolveDeletions, deletedPaths]
  · simp [resolveDeletions]

/-! ## Claim C10 -/

/-- Claim C10: when `num_words` is set, `get_text_snippet` follows the
word-count policy (the space-join of the first `n` word tokens) and the
value of `num_sentences` has no effect on the result. -/
theorem C10_word_policy_governs_when_both_set
    (text : List Char) (num_sentences : Option Nat) (n : Nat) :
    get_text_snippet text num_sentences (some n)
        = joinSpace ((findWords text).take n) ∧
    get_text_snippet text num_sentences (some n)
        = get_text_snippet text none (some n) :=
  ⟨rfl, rfl⟩

/-! ## Claim C6 -/

/-- Claim C6: when the collected fingerprint mapping is empty, the run stops
after logging a warning: the LLM completion is never invoked, nothing is
parsed, and the filesystem is untouched. -/
theorem C6_empty_mapping_skips_llm
    (docs : List (List Char × Option (List Char)))
    (num_sentences num_words : Option Nat) (delete_dupes : Bool)
    (oracle : List (List Char × List Char) → List Char)
    (fs0 : List (List Char))
    (h : collectSnippets docs num_sentences num_words = []) :
    process_pdfs_for_duplicates docs num_sentences num_words delete_dupes
        oracle fs0
      = { fs := fs0, events := [Event.logWarnNoSnippets], llmCalled := false } := by
  simp [process_pdfs_for_duplicates, h]

/-- Concrete instantiation of `C6_empty_mapping_skips_llm`: a run over a
single unreadable document collects nothing, warns, and never calls the
LLM. -/
theorem C6_empty_mapping_skips_llm_witness :
    process_pdfs_for_duplicates [("a.pdf".toList, none)] (some 1) none true
        (fun _ => []) []
      = { fs := [], events := [Event.logWarnNoSnippets], llmCalled := false } :=
  C6_empty_mapping_skips_llm [("a.pdf".toList, none)] (some 1) none true
    (fun _ => []) [] (by decide)

/-! ## Claim C4 -/

/-- The verdict line of the claim, exactly as written: no apostrophes around
the basenames. -/
def c4Verdict : List Char := "File A.pdf and File B.pdf are duplicates.".toList

/-- The same verdict line with the basenames quoted, which is what the
`File '` marker of the parser actually requires. -/
def c4VerdictQuoted : List Char :=
  "File ".toList ++ [qc] ++ "A.pdf".toList ++ [qc] ++ " and File ".toList ++
  [qc] ++ "B.pdf".toList ++ [qc] ++ " are duplicates.".toList

/-- Claim C4 counterexample: on the single line
`File A.pdf and File B.pdf are duplicates.` (as written in the claim, with
no apostrophes) the parser produces no duplicate pair at all — the
`File '` marker is absent, the subscript access raises, and the line yields
a logged parse error instead of the pair `(A.pdf, B.pdf)`. -/
theorem C4_counterexample :
    extractPairs c4Verdict = [] ∧
    (extractPairs c4Verdict == [("A.pdf".toList, "B.pdf".toList)]) = false ∧
    (handleLine [] [] c4Verdict).2 = [Event.logParseError] := by decide

/-- Claim C4 (amended): on the single line
`File 'A.pdf' and File 'B.pdf' are duplicates.` — with the basenames
quoted, as the parser's `File '` marker requires — the parser produces
exactly one duplicate pair `(A.pdf, B.pdf)`. -/
theorem C4_amended_quoted_line_yields_one_pair :
    extractPairs c4VerdictQuoted = [("A.pdf".toList, "B.pdf".toList)] := by decide

/-! ## Claim C2 -/

/-- A verdict line naming the same basename on both sides of `" and "`. -/
def c2Line : List Char :=
  "File ".toList ++ [qc] ++ "A.pdf".toList ++ [qc] ++ " and File ".toList ++
  [qc] ++ "A.pdf".toList ++ [qc] ++ " are duplicates.".toList

/-- A fingerprint mapping whose single key has basename `A.pdf`. -/
def c2Snips : List (List Char × List Char) :=
  [("docs/A.pdf".toList, "x".toList)]

/-- The filesystem in which that key exists. -/
def c2Fs : List (List Char) := ["docs/A.pdf".toList]

/-- A verdict line naming the two distinct basenames `A.pdf` and `B.pdf`. -/
def c2LineAB : List Char :=
  "File ".toList ++ [qc] ++ "A.pdf".toList ++ [qc] ++ " and File ".toList ++
  [qc] ++ "B.pdf".toList ++ [qc] ++ " are duplicates.".toList

/-- Claim C2 counterexample: in the pair extracted from
`File 'A.pdf' and File 'A.pdf' are duplicates.` both basenames resolve
(to the same mapping key `docs/A.pdf`), yet the file resolved from the
first basename is deleted — it is not retained, contradicting the claim's
"the file resolved from the first basename is retained (never deleted)". -/
theorem C2_counterexample :
    parseLine c2Line = some ("A.pdf".toList, "A.pdf".toList) ∧
    findPath c2Snips "A.pdf".toList = some "docs/A.pdf".toList ∧
    (resolveDeletions c2Line c2Snips true c2Fs).2
      = [Event.deleted "docs/A.pdf".toList] ∧
    (resolveDeletions c2Line c2Snips true c2Fs).1 = [] := by decide

/-- Claim C2 (amended): for every duplicate pair whose two basenames resolve
to entries of the fingerprint mapping with **distinct** (and non-empty)
resolved paths, when deletion is enabled and the second file still exists,
handling that line deletes exactly the file resolved from the second
basename, and the file resolved from the first basename is retained. -/
theorem C2_amended_second_deleted_first_retained
    (snips : List (List Char × List Char)) (fs : List (List Char))
    (line f1 f2 p1 p2 : List Char)
    (hline : containsSub sAreDup line = true)
    (hparse : parseLine line = some (f1, f2))
    (h1 : findPath snips f1 = some p1)
    (h2 : findPath snips f2 = some p2)
    (hne : p1 ≠ p2) (hp2 : p2 ≠ []) (hex : p2 ∈ fs) (hp1 : p1 ∈ fs) :
    handleLine snips fs line = (fs.erase p2, [Event.deleted p2]) ∧
    p1 ∈ (handleLine snips fs line).1 ∧
    findPath snips f1 = some p1 := by
  have hcont : fs.contains p2 = true := by simpa using hex
  have hE : p2.isEmpty = false := by simp [List.isEmpty_iff, hp2]
  have hmain : handleLine snips fs line = (fs.erase p2, [Event.deleted p2]) := by
    simp [handleLine, hline, hparse, h2, hE, hcont, hex, delete_file]
  refine ⟨hmain, ?_, h1⟩
  rw [hmain]
  exact (List.mem_erase_of_ne hne).mpr hp1

/-- Concrete instantiation of `C2_amended_second_deleted_first_retained`:
with distinct basenames `A.pdf` and `B.pdf` both in the mapping and on the
filesystem, `B.pdf` is deleted and `A.pdf` is retained. -/
theorem C2_amended_witness :
    handleLine [("A.pdf".toList, "x".toList), ("B.pdf".toList, "y".toList)]
        ["A.pdf".toList, "B.pdf".toList] c2LineAB
      = (["A.pdf".toList, "B.pdf".toList].erase "B.pdf".toList,
         [Event.deleted "B.pdf".toList]) ∧
    "A.pdf".toList ∈
      (handleLine [("A.pdf".toList, "x".toList), ("B.pdf".toList, "y".toList)]
        ["A.pdf".toList, "B.pdf".toList] c2LineAB).1 ∧
    findPath [("A.pdf".toList, "x".toList), ("B.pdf".toList, "y".toList)]
        "A.pdf".toList = some "A.pdf".toList :=
  C2_amended_second_deleted_first_retained
    [("A.pdf".toList, "x".toList), ("B.pdf".toList, "y".toList)]
    ["A.pdf".toList, "B.pdf".toList] c2LineAB
    "A.pdf".toList "B.pdf".toList "A.pdf".toList "B.pdf".toList
    (by decide) (by decide) (by decide) (by decide) (by decide) (by decide)
    (by decide) (by decide)

/-! ## Claim C3 -/

/-- A verdict line whose first basename `X.pdf` matches no mapping key while
the second basename `B.pdf` does. -/
def c3Line : List Char :=
  "File ".toList ++ [qc] ++ "X.pdf".toList ++ [qc] ++ " and File ".toList ++
  [qc] ++ "B.pdf".toList ++ [qc] ++ " are duplicates.".toList

/-- A fingerprint mapping that resolves `B.pdf` but not `X.pdf`. -/
def c3Snips : List (List Char × List Char) := [("B.pdf".toList, "y".toList)]

/-- Claim C3 counterexample: the first basename `X.pdf` fails to resolve,
yet the pair is not discarded — the file resolved from the second basename
is still deleted, and no error is logged. The deletion guard of the source
consults only the second resolution. -/
theorem C3_counterexample :
    findPath c3Snips "X.pdf".toList = none ∧
    findPath c3Snips "B.pdf".toList = some "B.pdf".toList ∧
    handleLine c3Snips ["B.pdf".toList] c3Line
      = ([], [Event.deleted "B.pdf".toList]) := by decide

/-- Claim C3 (amended): only a failure of the **second** basename to resolve
prevents the deletion, and the pair is then discarded silently — without a
logged error; failure of the first basename alone neither prevents deletion
of the second file nor is logged. -/
theorem C3_amended_second_resolution_failure_skips_silently
    (snips : List (List Char × List Char)) (fs : List (List Char))
    (line f1 f2 : List Char)
    (hline : containsSub sAreDup line = true)
    (hparse : parseLine line = some (f1, f2))
    (h2 : findPath snips f2 = none) :
    handleLine snips fs line = (fs, []) := by
  simp [handleLine, hline, hparse, h2]

/-- Concrete instantiation of
`C3_amended_second_resolution_failure_skips_silently`: a line whose second
basename `Y.pdf` is absent from the mapping is skipped with no deletion and
no logged event. -/
theorem C3_amended_witness :
    handleLine [("A.pdf".toList, "x".toList)] ["A.pdf".toList]
        ("File ".toList ++ [qc] ++ "A.pdf".toList ++ [qc] ++
         " and File ".toList ++ [qc] ++ "Y.pdf".toList ++ [qc] ++
         " are duplicates.".toList)
      = (["A.pdf".toList], []) :=
  C3_amended_second_resolution_failure_skips_silently
    [("A.pdf".toList, "x".toList)] ["A.pdf".toList]
    ("File ".toList ++ [qc] ++ "A.pdf".toList ++ [qc] ++
     " and File ".toList ++ [qc] ++ "Y.pdf".toList ++ [qc] ++
     " are duplicates.".toList)
    "A.pdf".toList "Y.pdf".toList (by decide) (by decide) (by decide)

/-! ## Claim C7 -/

/-- A verdict line pairing `A.pdf` with `B.pdf`, both resolvable. -/
def c7Line : List Char :=
  "File ".toList ++ [qc] ++ "A.pdf".toList ++ [qc] ++ " and File ".toList ++
  [qc] ++ "B.pdf".toList ++ [qc] ++ " are duplicates.".toList

/-- A fingerprint mapping resolving both basenames. -/
def c7Snips : List (List Char × List Char) :=
  [("A.pdf".toList, "x".toList), ("B.pdf".toList, "y".toList)]

/-- A filesystem from which the target `B.pdf` has already been removed. -/
def c7Fs : List (List Char) := ["A.pdf".toList]

/-- Claim C7 counterexample: when the target file of a resolved pair has
already been removed, the step is indeed a no-op that raises nothing — but
it is **not** logged: the `os.path.exists` pre-check silently skips the
`delete_file` call, so the event trace for the pair is empty, contradicting
the claim's "the outcome is logged". -/
theorem C7_counterexample :
    findPath c7Snips "B.pdf".toList = some "B.pdf".toList ∧
    c7Fs.contains "B.pdf".toList = false ∧
    handleLine c7Snips c7Fs c7Line = (c7Fs, []) := by decide

/-- Claim C7 (amended): for every resolved pair whose target (second) file
is no longer on the filesystem, handling the line is a **silent** no-op:
no exception escapes, nothing is deleted, nothing is logged, and the run
continues with the following lines. -/
theorem C7_amended_missing_target_is_silent_noop
    (snips : List (List Char × List Char)) (fs : List (List Char))
    (line f1 f2 p2 : List Char)
    (hline : containsSub sAreDup line = true)
    (hparse : parseLine line = some (f1, f2))
    (h2 : findPath snips f2 = some p2)
    (habs : p2 ∉ fs) :
    handleLine snips fs line = (fs, []) := by
  have hcont : fs.contains p2 = false := by simpa using habs
  simp [handleLine, hline, hparse, h2, hcont, habs]

/-- Concrete instantiation of `C7_amended_missing_target_is_silent_noop` at
the counterexample's input. -/
theorem C7_amended_witness :
    handleLine c7Snips c7Fs c7Line = (c7Fs, []) :=
  C7_amended_missing_target_is_silent_noop c7Snips c7Fs c7Line
    "A.pdf".toList "B.pdf".toList "B.pdf".toList
    (by decide) (by decide) (by decide) (by decide)

/-! ## Claim C5 -/

/-- Claim C5 counterexample: a document that opens successfully but whose
first page carries no text is **not** excluded — it is mapped to the empty
snippet, so the fingerprint mapping does contain a key bound to an empty
value, contradicting the claimed invariant. -/
theorem C5_counterexample :
    collectSnippets [("a.pdf".toList, some [])] (some 1) none
      = [("a.pdf".toList, [])] ∧
    (collectSnippets [("a.pdf".toList, some [])] (some 1) none).all
        (fun e => !e.2.isEmpty) = false := by decide

/-- Every entry produced by folding `collectStep` comes from the initial
accumulator or from a document of the batch whose extraction succeeded,
and carries exactly the snippet of that document's text. -/
theorem collect_mem_aux (num_sentences num_words : Option Nat) :
    ∀ (docs : List (List Char × Option (List Char)))
      (acc : List (List Char × List Char)) (p s : List Char),
      (p, s) ∈ docs.foldl (collectStep num_sentences num_words) acc →
      (p, s) ∈ acc ∨
        ∃ t, (p, some t) ∈ docs ∧ s = get_text_snippet t num_sentences num_words := by
  intro docs
  induction docs with
  | nil => intro acc p s h; exact Or.inl h
  | cons pd rest ih =>
    intro acc p s h
    simp only [List.foldl_cons] at h
    rcases ih (collectStep num_sentences num_words acc pd) p s h with hacc | ⟨t, ht, hs⟩
    · cases hd : pd.2 with
      | none =>
        unfold collectStep extract_and_store_snippet extract_with_pymupdf at hacc
        rw [hd] at hacc
        exact Or.inl hacc
      | some t =>
        unfold collectStep extract_and_store_snippet extract_with_pymupdf at hacc
        rw [hd] at hacc
        simp only [List.mem_append, List.mem_singleton, Prod.mk.injEq] at hacc
        rcases hacc with h0 | ⟨hp, hs⟩
        · exact Or.inl h0
        · refine Or.inr ⟨t, ?_, hs⟩
          have heq : pd = (p, some t) := by
            cases pd with
            | mk a b => simp only at hp hd; rw [hp, hd]
          rw [← heq]
          exact List.mem_cons_self pd rest
    · exact Or.inr ⟨t, List.mem_cons_of_mem _ ht, hs⟩

/-- Claim C5 (amended): every entry of the fingerprint mapping originates
from a document of the batch whose extraction **succeeded**, and its value
is exactly the snippet computed from that document's first-page text —
documents whose extraction failed never contribute an entry, and failures
are recovered inside the collector (the extractor returns an empty snippet
list instead of raising). The snippet stored for a successfully extracted
document may, however, be empty when its page text yields no content. -/
theorem C5_amended_entries_come_from_successful_extraction
    (docs : List (List Char × Option (List Char)))
    (num_sentences num_words : Option Nat) (p s : List Char)
    (h : (p, s) ∈ collectSnippets docs num_sentences num_words) :
    ∃ t, (p, some t) ∈ docs ∧ s = get_text_snippet t num_sentences num_words := by
  rcases collect_mem_aux num_sentences num_words docs [] p s h with h0 | hE
  · cases h0
  · exact hE

/-- Concrete instantiation of
`C5_amended_entries_come_from_successful_extraction` on a one-document
batch. -/
theorem C5_amended_witness :
    ∃ t, ("a.pdf".toList, some t) ∈ [("a.pdf".toList, some "hi".toList)] ∧
      "hi".toList = get_text_snippet t (some 1) none :=
  C5_amended_entries_come_from_successful_extraction
    [("a.pdf".toList, some "hi".toList)] (some 1) none
    "a.pdf".toList "hi".toList (by decide)

/-! ## Claim C9 -/

/-- `deletedPaths` distributes over appended traces. -/
theorem deletedPaths_append (a b : List Event) :
    deletedPaths (a ++ b) = deletedPaths a ++ deletedPaths b := by
  unfold deletedPaths
  exact List.filterMap_append a b _

/-- Any path passed to the deletion operation while handling one verdict
line is a key of the fingerprint mapping. -/
theorem handleLine_deleted_mem (snips : List (List Char × List Char))
    (fs : List (List Char)) (line p : List Char)
    (h : p ∈ deletedPaths (handleLine snips fs line).2) :
    p ∈ snips.map Prod.fst := by
  by_cases hc : containsSub sAreDup line = true
  · cases hp : parseLine line with
    | none => simp [handleLine, hc, hp, deletedPaths] at h
    | some pr =>
      cases hf : findPath snips pr.2 with
      | none => simp [handleLine, hc, hp, hf, deletedPaths] at h
      | some p2 =>
        by_cases hnil : p2 = []
        · simp [handleLine, hc, hp, hf, hnil, deletedPaths] at h
        · by_cases hin : p2 ∈ fs
          · have hpp : p = p2 := by
              simp [handleLine, hc, hp, hf, hnil, hin, delete_file,
                deletedPaths] at h
              exact h
            rw [hpp]
            exact List.mem_of_find?_eq_some hf
          · simp [handleLine, hc, hp, hf, hnil, hin, deletedPaths] at h
  · simp [handleLine, hc, deletedPaths] at h

/-- Any path passed to the deletion operation while folding the parsing
loop over the verdict lines is already in the accumulated trace or is a key
of the fingerprint mapping. -/
theorem foldl_deletedPaths_mem (snips : List (List Char × List Char)) :
    ∀ (lines : List (List Char)) (fs : List (List Char)) (evs : List Event)
      (p : List Char),
      p ∈ deletedPaths ((lines.foldl (stepLine snips) (fs, evs)).2) →
      p ∈ deletedPaths evs ∨ p ∈ snips.map Prod.fst := by
  intro lines
  induction lines with
  | nil => intro fs evs p h; exact Or.inl h
  | cons line rest ih =>
    intro fs evs p h
    simp only [List.foldl_cons] at h
    have hstep : stepLine snips (fs, evs) line
        = ((handleLine snips fs line).1, evs ++ (handleLine snips fs line).2) := rfl
    rw [hstep] at h
    rcases ih (handleLine snips fs line).1 (evs ++ (handleLine snips fs line).2)
        p h with h0 | h0
    · rw [deletedPaths_append, List.mem_append] at h0
      rcases h0 with h1 | h1
      · exact Or.inl h1
      · exact Or.inr (handleLine_deleted_mem snips fs line p h1)
    · exact Or.inr h0

/-- Claim C9: every file path ever passed to the deletion operation during
a run is a key of the fingerprint mapping built in that same run — the
program can only delete files that were fingerprinted in the current batch,
never an arbitrary path named in the verdict text. -/
theorem C9_deletions_only_target_mapping_keys
    (docs : List (List Char × Option (List Char)))
    (num_sentences num_words : Option Nat) (delete_dupes : Bool)
    (oracle : List (List Char × List Char) → List Char)
    (fs0 : List (List Char)) (p : List Char)
    (h : p ∈ deletedPaths
        (process_pdfs_for_duplicates docs num_sentences num_words delete_dupes
          oracle fs0).events) :
    p ∈ (collectSnippets docs num_sentences num_words).map Prod.fst := by
  unfold process_pdfs_for_duplicates at h
  by_cases he : (collectSnippets docs num_sentences num_words).isEmpty
  · simp [he, deletedPaths] at h
  · simp only [he, Bool.false_eq_true, if_false] at h
    have hrep : ∀ l : List Event, deletedPaths (Event.logReport :: l)
        = deletedPaths l := by
      intro l; rfl
    rw [hrep] at h
    unfold resolveDeletions at h
    cases delete_dupes with
    | false => simp [deletedPaths] at h
    | true =>
      simp only [if_true] at h
      rcases foldl_deletedPaths_mem
          (collectSnippets docs num_sentences num_words) _ fs0 [] p h with h0 | h0
      · cases h0
      · exact h0

/-- Concrete instantiation of `C9_deletions_only_target_mapping_keys`: in a
full run over two readable documents whose oracle verdict names both of
them, the single deleted path `B.pdf` is a key of the collected mapping. -/
theorem C9_witness :
    "B.pdf".toList ∈
      (collectSnippets
        [("A.pdf".toList, some "x".toList), ("B.pdf".toList, some "x".toList)]
        (some 1) none).map Prod.fst :=
  C9_deletions_only_target_mapping_keys
    [("A.pdf".toList, some "x".toList), ("B.pdf".toList, some "x".toList)]
    (some 1) none true
    (fun _ => "File ".toList ++ [qc] ++ "A.pdf".toList ++ [qc] ++
      " and File ".toList ++ [qc] ++ "B.pdf".toList ++ [qc] ++
      " are duplicates.".toList)
    ["A.pdf".toList, "B.pdf".toList] "B.pdf".toList (by decide)

/-! ## Claim C8 -/

/-- The number of word tokens (`\w+` matches) a string contains. -/
def wordTokenCount (s : List Char) : Nat := (findWords s).length

/-- The number of sentences a string contains: the non-empty segments of
the sentence-boundary split. -/
def sentenceCount (s : List Char) : Nat :=
  ((sentSplit s).filter (fun seg => !seg.isEmpty)).length

/-- Claim C8 counterexample: the word-policy snippet of the non-empty text
`!!!` (which contains no word characters) is empty, so a snippet can be
empty although the source text is not. -/
theorem C8_counterexample :
    get_text_snippet "!!!".toList none (some 5) = [] ∧
    ("!!!".toList).isEmpty = false ∧
    get_text_snippet " ".toList (some 1) none = [] ∧
    (" ".toList).isEmpty = false := by decide

/-- Every token returned by `findWords` is a non-empty run of word
characters. -/
theorem findWords_sound :
    ∀ s : List Char, ∀ w ∈ findWords s, w ≠ [] ∧ w.all isWordChar = true := by
  intro s
  induction s with
  | nil => intro w hw; cases hw
  | cons c cs ih =>
    intro w hw
    by_cases hc : isWordChar c = true
    · by_cases hh : isWordChar (cs.headD ' ') = true
      · cases hr : findWords cs with
        | nil =>
          simp only [findWords, hc, hh, hr, if_true] at hw
          simp only [List.mem_singleton] at hw
          subst hw
          exact ⟨by simp, by simp [hc]⟩
        | cons w0 ws0 =>
          simp only [findWords, hc, hh, hr, if_true] at hw
          rcases List.mem_cons.mp hw with h0 | h0
          · subst h0
            have hw0 := ih w0 (by rw [hr]; exact List.mem_cons_self w0 ws0)
            exact ⟨by simp, by simp [hc, hw0.2]⟩
          · exact ih w (by rw [hr]; exact List.mem_cons_of_mem w0 h0)
      · simp only [findWords, hc, hh, if_true, Bool.false_eq_true, if_false] at hw
        rcases List.mem_cons.mp hw with h0 | h0
        · subst h0
          exact ⟨by simp, by simp [hc]⟩
        · exact ih w h0
    · simp only [findWords, hc, Bool.false_eq_true, if_false] at hw
      exact ih w hw

/-- Unfolding equation of `findWords` on a cons cell. -/
theorem findWords_cons (c : Char) (cs : List Char) :
    findWords (c :: cs) =
      if isWordChar c = true then
        if isWordChar (cs.headD ' ') = true then
          match findWords cs with
          | [] => [[c]]
          | w :: ws => (c :: w) :: ws
        else [c] :: findWords cs
      else findWords cs := rfl

/-- Prepending a non-empty all-word-character run to a string that does not
begin with a word character prepends exactly one token. -/
theorem findWords_prepend :
    ∀ (w s : List Char), w ≠ [] → w.all isWordChar = true →
      isWordChar (s.headD ' ') = false →
      findWords (w ++ s) = w :: findWords s := by
  intro w
  induction w with
  | nil => intro s h; cases h rfl
  | cons c w' ih =>
    intro s _ hall hs
    have hc : isWordChar c = true := by
      simp only [List.all_cons, Bool.and_eq_true] at hall
      exact hall.1
    cases w' with
    | nil =>
      rw [List.cons_append, List.nil_append, findWords_cons, if_pos hc,
        if_neg (by rw [hs]; exact Bool.false_ne_true)]
    | cons d w'' =>
      have hd : isWordChar d = true := by
        simp only [List.all_cons, Bool.and_eq_true] at hall
        exact hall.2.1
      have hrec : findWords (d :: w'' ++ s) = (d :: w'') :: findWords s := by
        refine ih s (by simp) ?_ hs
        simp only [List.all_cons, Bool.and_eq_true] at hall
        simp [List.all_cons, hall.2.1, hall.2.2]
      have hhead : ((d :: (w'' ++ s)).headD ' ') = d := rfl
      rw [List.cons_append, List.cons_append, findWords_cons, if_pos hc, hhead,
        if_pos hd]
      rw [List.cons_append] at hrec
      rw [hrec]

/-- Re-scanning the space-join of non-empty word-character runs recovers
exactly those runs. -/
theorem findWords_join :
    ∀ ws : List (List Char),
      (∀ w ∈ ws, w ≠ [] ∧ w.all isWordChar = true) →
      findWords (joinSpace ws) = ws := by
  intro ws
  induction ws with
  | nil => intro _; rfl
  | cons w rest ih =>
    intro hgood
    have hw := hgood w (List.mem_cons_self w rest)
    cases rest with
    | nil =>
      have : joinSpace [w] = w := rfl
      rw [this]
      have := findWords_prepend w [] hw.1 hw.2 (by simp [isWordChar])
      simpa using this
    | cons v rest' =>
      have hjoin : joinSpace (w :: v :: rest') = w ++ ' ' :: joinSpace (v :: rest') :=
        rfl
      rw [hjoin]
      have hstep := findWords_prepend w (' ' :: joinSpace (v :: rest'))
        hw.1 hw.2 (by simp [isWordChar])
      rw [hstep]
      have hsp : findWords (' ' :: joinSpace (v :: rest'))
          = findWords (joinSpace (v :: rest')) := by
        simp [findWords, isWordChar]
      rw [hsp]
      rw [ih (fun x hx => hgood x (List.mem_cons_of_mem w hx))]

/-- A string whose first character (if any) is not whitespace. -/
def headOk : List Char → Bool
  | [] => true
  | c :: _ => !c.isWhitespace

/-- A string whose last character (if any) is not whitespace. -/
def lastOk : List Char → Bool
  | [] => true
  | [c] => !c.isWhitespace
  | _ :: d :: r => lastOk (d :: r)

/-- A string whose last character exists and is sentence-terminal. -/
def endsTerm : List Char → Bool
  | [] => false
  | [c] => isTerm c
  | _ :: d :: r => endsTerm (d :: r)

/-- A string containing no sentence boundary (no terminal character
immediately followed by whitespace). -/
def noBoundary : List Char → Bool
  | [] => true
  | [_] => true
  | c :: d :: r => !(isTerm c && d.isWhitespace) && noBoundary (d :: r)

/-- Well-formed sentence segmentation: every segment is non-empty and
boundary-free, every non-last segment ends with a terminal character, and
every non-first segment starts with a non-whitespace character. -/
def goodSegs : List (List Char) → Bool
  | [] => true
  | [w] => !w.isEmpty && noBoundary w
  | w :: v :: r =>
    !w.isEmpty && noBoundary w && endsTerm w && headOk v && goodSegs (v :: r)

/-- `sentSplitF` on the empty string, at any fuel. -/
theorem sentSplitF_nil (f : Nat) : sentSplitF f [] = [[]] := by
  cases f <;> rfl

/-- Unfolding equation of `sentSplitF` at positive fuel on a cons cell. -/
theorem sentSplitF_cons (f : Nat) (c : Char) (cs : List Char) :
    sentSplitF (f + 1) (c :: cs) =
      if (isTerm c && (cs.headD 'x').isWhitespace) = true then
        [c] :: sentSplitF f (cs.dropWhile Char.isWhitespace)
      else
        match sentSplitF f cs with
        | [] => [[c]]
        | s :: ss => (c :: s) :: ss := rfl

/-- The sentence splitter always returns at least one segment. -/
theorem sentSplitF_ne_nil : ∀ (f : Nat) (s : List Char), sentSplitF f s ≠ [] := by
  intro f s
  cases s with
  | nil => rw [sentSplitF_nil]; simp
  | cons c cs =>
    cases f with
    | zero => simp [sentSplitF]
    | succ f =>
      rw [sentSplitF_cons]
      by_cases h : (isTerm c && (cs.headD 'x').isWhitespace) = true
      · rw [if_pos h]; simp
      · rw [if_neg h]
        cases hr : sentSplitF f cs <;> simp

/-- The first segment begins with the first character of the input. -/
theorem sentSplitF_first (f : Nat) (c : Char) (cs : List Char) :
    ∃ t r, sentSplitF f (c :: cs) = (c :: t) :: r := by
  cases f with
  | zero => exact ⟨cs, [], rfl⟩
  | succ f =>
    rw [sentSplitF_cons]
    by_cases h : (isTerm c && (cs.headD 'x').isWhitespace) = true
    · rw [if_pos h]
      exact ⟨[], sentSplitF f (cs.dropWhile Char.isWhitespace), rfl⟩
    · rw [if_neg h]
      cases hr : sentSplitF f cs with
      | nil => exact ⟨[], [], rfl⟩
      | cons s ss => exact ⟨s, ss, rfl⟩

/-- Dropping leading whitespace leaves a string with a non-whitespace
head. -/
theorem headOk_dropWhile (l : List Char) :
    headOk (l.dropWhile Char.isWhitespace) = true := by
  induction l with
  | nil => rfl
  | cons c t ih =>
    by_cases hc : c.isWhitespace = true
    · simpa [List.dropWhile, hc] using ih
    · simp [List.dropWhile, hc, headOk]

/-- A string with a non-whitespace head is untouched by the whitespace
drop. -/
theorem dropWhile_eq_self_of_headOk (l : List Char) (h : headOk l = true) :
    l.dropWhile Char.isWhitespace = l := by
  cases l with
  | nil => rfl
  | cons c t =>
    have hc : c.isWhitespace = false := by
      simpa [headOk] using h
    simp [List.dropWhile, hc]

/-- A non-empty string that ends in non-whitespace does not vanish under
the whitespace drop. -/
theorem dropWhile_ne_nil_of_lastOk :
    ∀ l : List Char, l ≠ [] → lastOk l = true →
      l.dropWhile Char.isWhitespace ≠ [] := by
  intro l
  induction l with
  | nil => intro h; cases h rfl
  | cons c t ih =>
    intro _ hlast
    by_cases hc : c.isWhitespace = true
    · cases t with
      | nil => simp [lastOk, hc] at hlast
      | cons d r =>
        have ht := ih (by simp) hlast
        simpa [List.dropWhile, hc] using ht
    · simp [List.dropWhile, hc]

/-- The whitespace drop preserves a non-whitespace last character. -/
theorem lastOk_dropWhile :
    ∀ l : List Char, lastOk l = true →
      lastOk (l.dropWhile Char.isWhitespace) = true := by
  intro l
  induction l with
  | nil => intro h; simpa using h
  | cons c t ih =>
    intro hlast
    by_cases hc : c.isWhitespace = true
    · cases t with
      | nil => simp [lastOk, hc] at hlast
      | cons d r =>
        have ht := ih hlast
        simpa [List.dropWhile, hc] using ht
    · simpa [List.dropWhile, hc] using hlast

/-- Dropping leading whitespace does not lengthen a string. -/
theorem length_dropWhile_ws_le (l : List Char) :
    (l.dropWhile Char.isWhitespace).length ≤ l.length := by
  induction l with
  | nil => simp
  | cons c t ih =>
    by_cases hc : c.isWhitespace = true
    · simp only [List.dropWhile, hc]
      exact le_trans ih (Nat.le_succ _)
    · simp [List.dropWhile, hc]

/-- The sentence splitter does not depend on the fuel, provided the fuel
covers the input length. -/
theorem sentSplitF_irrel :
    ∀ (f g : Nat) (s : List Char), s.length ≤ f → s.length ≤ g →
      sentSplitF f s = sentSplitF g s := by
  intro f
  induction f with
  | zero =>
    intro g s hf _
    have hs : s = [] := List.length_eq_zero.mp (Nat.le_zero.mp hf)
    subst hs
    rw [sentSplitF_nil, sentSplitF_nil]
  | succ f ih =>
    intro g s hf hg
    cases s with
    | nil => rw [sentSplitF_nil, sentSplitF_nil]
    | cons c cs =>
      cases g with
      | zero => simp at hg
      | succ g =>
        have hfc : cs.length ≤ f := Nat.succ_le_succ_iff.mp hf
        have hgc : cs.length ≤ g := Nat.succ_le_succ_iff.mp hg
        rw [sentSplitF_cons, sentSplitF_cons]
        by_cases h : (isTerm c && (cs.headD 'x').isWhitespace) = true
        · rw [if_pos h, if_pos h]
          have hdrop : (cs.dropWhile Char.isWhitespace).length ≤ cs.length :=
            length_dropWhile_ws_le cs
          rw [ih g (cs.dropWhile Char.isWhitespace) (le_trans hdrop hfc)
            (le_trans hdrop hgc)]
        · rw [if_neg h, if_neg h, ih g cs hfc hgc]

/-- A boundary-free string is returned as a single segment. -/
theorem sentSplitF_noBoundary :
    ∀ (w : List Char) (f : Nat), w.length ≤ f → noBoundary w = true →
      sentSplitF f w = [w] := by
  intro w
  induction w with
  | nil => intro f _ _; rw [sentSplitF_nil]
  | cons c w' ih =>
    intro f hf hnb
    cases f with
    | zero => simp at hf
    | succ f =>
      rw [sentSplitF_cons]
      have hcond : (isTerm c && (w'.headD 'x').isWhitespace) = false := by
        cases w' with
        | nil => simp
        | cons d r =>
          have h1 : (!(isTerm c && d.isWhitespace)) = true := by
            have : noBoundary (c :: d :: r)
                = (!(isTerm c && d.isWhitespace) && noBoundary (d :: r)) := rfl
            rw [this] at hnb
            exact (Bool.and_eq_true _ _ |>.mp hnb).1
          have hhd : ((d :: r).headD 'x') = d := rfl
          rw [hhd]
          cases hb : (isTerm c && d.isWhitespace) with
          | false => rfl
          | true => rw [hb] at h1; simp at h1
      rw [if_neg (by rw [hcond]; exact Bool.false_ne_true)]
      have hnb' : noBoundary w' = true := by
        cases w' with
        | nil => rfl
        | cons d r =>
          have : noBoundary (c :: d :: r)
              = (!(isTerm c && d.isWhitespace) && noBoundary (d :: r)) := rfl
          rw [this] at hnb
          exact (Bool.and_eq_true _ _ |>.mp hnb).2
      rw [ih f (Nat.succ_le_succ_iff.mp hf) hnb']

/-- Appending one character fixes the `lastOk` of the result. -/
theorem lastOk_append_singleton :
    ∀ (x : List Char) (c : Char), lastOk (x ++ [c]) = !c.isWhitespace := by
  intro x
  induction x with
  | nil => intro c; rfl
  | cons a x' ih =>
    intro c
    rw [List.cons_append]
    cases hx : x' ++ [c] with
    | nil => simp at hx
    | cons b r =>
      have : lastOk (a :: b :: r) = lastOk (b :: r) := rfl
      rw [this, ← hx, ih c]

/-- Reversing a string with a non-whitespace head yields a non-whitespace
last character. -/
theorem lastOk_reverse_of_headOk (l : List Char) (h : headOk l = true) :
    lastOk l.reverse = true := by
  cases l with
  | nil => rfl
  | cons c t =>
    have hc : c.isWhitespace = false := by simpa [headOk] using h
    rw [List.reverse_cons, lastOk_append_singleton, hc]
    rfl

/-- The stripped text ends with a non-whitespace character (or is empty). -/
theorem lastOk_pyStrip (t : List Char) : lastOk (pyStrip t) = true := by
  unfold pyStrip
  exact lastOk_reverse_of_headOk _ (headOk_dropWhile _)

/-- Unfolding equation of `goodSegs` at two or more segments. -/
theorem goodSegs_pair (w v : List Char) (r : List (List Char)) :
    goodSegs (w :: v :: r)
      = (!w.isEmpty && noBoundary w && endsTerm w && headOk v
         && goodSegs (v :: r)) := rfl

/-- Unfolding equation of `goodSegs` at one segment. -/
theorem goodSegs_one (w : List Char) :
    goodSegs [w] = (!w.isEmpty && noBoundary w) := rfl

/-- Unfolding equation of `noBoundary` at two or more characters. -/
theorem noBoundary_pair (c d : Char) (r : List Char) :
    noBoundary (c :: d :: r)
      = (!(isTerm c && d.isWhitespace) && noBoundary (d :: r)) := rfl

/-- Unfolding equation of `endsTerm` at two or more characters. -/
theorem endsTerm_pair (c d : Char) (r : List Char) :
    endsTerm (c :: d :: r) = endsTerm (d :: r) := rfl

/-- On a non-empty input ending in non-whitespace, the sentence splitter
produces a well-formed segmentation. -/
theorem sentSplitF_goodSegs :
    ∀ (f : Nat) (s : List Char), s.length ≤ f → s ≠ [] → lastOk s = true →
      goodSegs (sentSplitF f s) = true := by
  intro f
  induction f with
  | zero =>
    intro s hf hne _
    exact absurd (List.length_eq_zero.mp (Nat.le_zero.mp hf)) hne
  | succ f ih =>
    intro s hf hne hlast
    cases s with
    | nil => cases hne rfl
    | cons c cs =>
      rw [sentSplitF_cons]
      by_cases hb : (isTerm c && (cs.headD 'x').isWhitespace) = true
      · rw [if_pos hb]
        have hcs_ne : cs ≠ [] := by
          intro h
          subst h
          simp at hb
        have hterm : isTerm c = true := (Bool.and_eq_true _ _ |>.mp hb).1
        have hlast_cs : lastOk cs = true := by
          cases cs with
          | nil => cases hcs_ne rfl
          | cons d r => exact hlast
        have hrest_ne : cs.dropWhile Char.isWhitespace ≠ [] :=
          dropWhile_ne_nil_of_lastOk cs hcs_ne hlast_cs
        have hrest_last : lastOk (cs.dropWhile Char.isWhitespace) = true :=
          lastOk_dropWhile cs hlast_cs
        have hrest_len : (cs.dropWhile Char.isWhitespace).length ≤ f :=
          le_trans (length_dropWhile_ws_le cs) (Nat.succ_le_succ_iff.mp hf)
        have hrec := ih _ hrest_len hrest_ne hrest_last
        have hheadok : headOk (cs.dropWhile Char.isWhitespace) = true :=
          headOk_dropWhile cs
        cases hre : cs.dropWhile Char.isWhitespace with
        | nil => cases hrest_ne hre
        | cons e rest' =>
          rw [hre] at hrec hheadok
          obtain ⟨t, r, hout⟩ := sentSplitF_first f e rest'
          rw [hout]
          rw [hout] at hrec
          rw [goodSegs_pair]
          simp only [Bool.and_eq_true]
          refine ⟨⟨⟨⟨by simp, rfl⟩, ?_⟩, hheadok⟩, hrec⟩
          show isTerm c = true
          exact hterm
      · rw [if_neg hb]
        cases cs with
        | nil =>
          rw [sentSplitF_nil]
          show goodSegs [[c]] = true
          rw [goodSegs_one]
          simp [noBoundary]
        | cons d cs' =>
          have hlast_tail : lastOk (d :: cs') = true := hlast
          have hlen : (d :: cs').length ≤ f := Nat.succ_le_succ_iff.mp hf
          have hrec := ih (d :: cs') hlen (by simp) hlast_tail
          obtain ⟨t, r, hout⟩ := sentSplitF_first f d cs'
          rw [hout]
          rw [hout] at hrec
          have hnb_pair : (!(isTerm c && d.isWhitespace)) = true := by
            cases hx : (isTerm c && d.isWhitespace) with
            | false => rfl
            | true => exact absurd hx hb
          cases r with
          | nil =>
            rw [goodSegs_one] at hrec ⊢
            simp only [Bool.and_eq_true] at hrec
            rw [noBoundary_pair]
            simp [hnb_pair, hrec.2]
          | cons v r' =>
            rw [goodSegs_pair] at hrec ⊢
            simp only [Bool.and_eq_true] at hrec
            obtain ⟨⟨⟨⟨_, hnb0⟩, het0⟩, hho0⟩, hgs0⟩ := hrec
            rw [noBoundary_pair, endsTerm_pair]
            simp [hnb_pair, hnb0, het0, hho0, hgs0]

/-- Splitting a boundary-free, terminal-ended segment followed by a space
and a remainder with non-whitespace head yields the segment and then the
split of the remainder. -/
theorem sentSplitF_prepend :
    ∀ (w : List Char) (f : Nat) (rest : List Char),
      (w ++ ' ' :: rest).length ≤ f → w ≠ [] → noBoundary w = true →
      endsTerm w = true → headOk rest = true →
      sentSplitF f (w ++ ' ' :: rest) = w :: sentSplitF rest.length rest := by
  intro w
  induction w with
  | nil => intro f rest _ h; cases h rfl
  | cons c w' ih =>
    intro f rest hf _ hnb het hho
    cases f with
    | zero => simp at hf
    | succ f =>
      cases w' with
      | nil =>
        rw [List.cons_append, List.nil_append, sentSplitF_cons]
        have hterm : isTerm c = true := het
        have hcond : (isTerm c && ((' ' :: rest).headD 'x').isWhitespace)
            = true := by
          have hh : ((' ' :: rest).headD 'x') = ' ' := rfl
          rw [hh, hterm]
          rfl
        rw [if_pos hcond]
        have hdrop : (' ' :: rest).dropWhile Char.isWhitespace = rest := by
          have h1 : (' ' :: rest).dropWhile Char.isWhitespace
              = rest.dropWhile Char.isWhitespace := by
            simp [List.dropWhile]
          rw [h1, dropWhile_eq_self_of_headOk rest hho]
        rw [hdrop]
        have hlen : rest.length ≤ f := by
          have := hf
          simp only [List.length_cons, List.length_append] at this
          omega
        rw [sentSplitF_irrel f rest.length rest hlen le_rfl]
      | cons d w'' =>
        rw [List.cons_append, sentSplitF_cons]
        have hcond : (isTerm c && (((d :: w'') ++ ' ' :: rest).headD 'x').isWhitespace)
            = false := by
          have hh : (((d :: w'') ++ ' ' :: rest).headD 'x') = d := rfl
          rw [hh]
          have h1 : (!(isTerm c && d.isWhitespace)) = true :=
            (Bool.and_eq_true _ _ |>.mp (noBoundary_pair c d w'' ▸ hnb)).1
          cases hx : (isTerm c && d.isWhitespace) with
          | false => rfl
          | true => rw [hx] at h1; simp at h1
        rw [if_neg (by rw [hcond]; exact Bool.false_ne_true)]
        have hnb' : noBoundary (d :: w'') = true :=
          (Bool.and_eq_true _ _ |>.mp (noBoundary_pair c d w'' ▸ hnb)).2
        have het' : endsTerm (d :: w'') = true := endsTerm_pair c d w'' ▸ het
        have hlen' : ((d :: w'') ++ ' ' :: rest).length ≤ f := by
          have := hf
          simp only [List.length_cons, List.length_append] at this ⊢
          omega
        have hrec := ih f rest hlen' (by simp) hnb' het' hho
        rw [hrec]

/-- The first segment of a well-formed segmentation is non-empty and
boundary-free. -/
theorem goodSegs_head (v : List Char) (r : List (List Char))
    (h : goodSegs (v :: r) = true) : v ≠ [] ∧ noBoundary v = true := by
  cases r with
  | nil =>
    rw [goodSegs_one] at h
    simp only [Bool.and_eq_true] at h
    exact ⟨by simpa using h.1, h.2⟩
  | cons u r' =>
    rw [goodSegs_pair] at h
    simp only [Bool.and_eq_true] at h
    exact ⟨by simpa using h.1.1.1.1, h.1.1.1.2⟩

/-- The space-join of a list starting with a non-empty segment starts with
that segment's head. -/
theorem headOk_joinSpace_cons (v : List Char) (r : List (List Char))
    (hv : v ≠ []) : headOk (joinSpace (v :: r)) = headOk v := by
  cases r with
  | nil => rfl
  | cons u r' =>
    have hj : joinSpace (v :: u :: r') = v ++ ' ' :: joinSpace (u :: r') := rfl
    rw [hj]
    cases v with
    | nil => cases hv rfl
    | cons a t => rfl

/-- Re-splitting the space-join of a well-formed segmentation recovers
exactly its segments. -/
theorem sentSplit_join :
    ∀ segs : List (List Char), segs ≠ [] → goodSegs segs = true →
      sentSplit (joinSpace segs) = segs := by
  intro segs
  induction segs with
  | nil => intro h; cases h rfl
  | cons w rest ih =>
    intro _ hgood
    cases rest with
    | nil =>
      have hj : joinSpace [w] = w := rfl
      rw [hj]
      have hnb : noBoundary w = true :=
        (Bool.and_eq_true _ _ |>.mp (goodSegs_one w ▸ hgood)).2
      exact sentSplitF_noBoundary w w.length le_rfl hnb
    | cons v rest' =>
      have hj : joinSpace (w :: v :: rest') = w ++ ' ' :: joinSpace (v :: rest') :=
        rfl
      rw [hj]
      rw [goodSegs_pair] at hgood
      simp only [Bool.and_eq_true] at hgood
      obtain ⟨⟨⟨⟨hne0, hnb0⟩, het0⟩, hho0⟩, hgs0⟩ := hgood
      have hvh := goodSegs_head v rest' hgs0
      have hhead : headOk (joinSpace (v :: rest')) = true := by
        rw [headOk_joinSpace_cons v rest' hvh.1]
        exact hho0
      have hwne : w ≠ [] := by simpa using hne0
      show sentSplitF (w ++ ' ' :: joinSpace (v :: rest')).length
          (w ++ ' ' :: joinSpace (v :: rest')) = w :: v :: rest'
      rw [sentSplitF_prepend w _ (joinSpace (v :: rest')) le_rfl hwne hnb0
        het0 hhead]
      have hrec := ih (by simp) hgs0
      show w :: sentSplit (joinSpace (v :: rest')) = w :: v :: rest'
      rw [hrec]

/-- A well-formed segmentation stays well-formed under `take`. -/
theorem goodSegs_take :
    ∀ (l : List (List Char)) (n : Nat), goodSegs l = true →
      goodSegs (l.take n) = true := by
  intro l
  induction l with
  | nil =>
    intro n _
    rw [List.take_nil]
    rfl
  | cons w rest ih =>
    intro n hg
    cases n with
    | zero => rfl
    | succ n =>
      cases rest with
      | nil =>
        have h1 : ([w] : List (List Char)).take (n + 1) = [w] := by simp
        rw [h1]
        exact hg
      | cons v rest' =>
        have ht : (w :: v :: rest').take (n + 1) = w :: (v :: rest').take n := rfl
        rw [ht]
        cases n with
        | zero =>
          show goodSegs [w] = true
          rw [goodSegs_one]
          rw [goodSegs_pair] at hg
          simp only [Bool.and_eq_true] at hg
          simp [hg.1.1.1.1, hg.1.1.1.2]
        | succ n =>
          have ht2 : (v :: rest').take (n + 1) = v :: rest'.take n := rfl
          rw [ht2]
          rw [goodSegs_pair] at hg
          simp only [Bool.and_eq_true] at hg
          obtain ⟨⟨⟨⟨h1, h2⟩, h3⟩, h4⟩, h5⟩ := hg
          have hrec := ih (n + 1) h5
          rw [ht2] at hrec
          rw [goodSegs_pair]
          simp [h1, h2, h3, h4, hrec]

/-- The tail of a well-formed segmentation is well-formed. -/
theorem goodSegs_tail (w : List Char) (rest : List (List Char))
    (h : goodSegs (w :: rest) = true) : goodSegs rest = true := by
  cases rest with
  | nil => rfl
  | cons v r =>
    rw [goodSegs_pair] at h
    simp only [Bool.and_eq_true] at h
    exact h.2

/-- All segments of a well-formed segmentation survive the non-emptiness
filter. -/
theorem filter_of_goodSegs :
    ∀ l : List (List Char), goodSegs l = true →
      l.filter (fun seg => !seg.isEmpty) = l := by
  intro l
  induction l with
  | nil => intro _; rfl
  | cons w rest ih =>
    intro hg
    have hw := goodSegs_head w rest hg
    have hne : (!w.isEmpty) = true := by simpa using hw.1
    rw [List.filter_cons]
    rw [if_pos hne]
    rw [ih (goodSegs_tail w rest hg)]

/-- Claim C8 (amended): the word-count policy yields at most `n` word
tokens and the sentence-count policy yields at most `n` sentences, and an
empty source text yields an empty snippet under either policy; however a
snippet can also be empty for a *non-empty* source text (see the
counterexample), so emptiness of the snippet does not imply emptiness of
the source. -/
theorem C8_amended_policy_bounds (text : List Char)
    (num_sentences : Option Nat) (n : Nat) :
    wordTokenCount (get_text_snippet text num_sentences (some n)) ≤ n ∧
    sentenceCount (get_text_snippet text (some n) none) ≤ n ∧
    get_text_snippet [] num_sentences (some n) = [] ∧
    get_text_snippet [] (some n) none = [] := by
  refine ⟨?_, ?_, ?_, ?_⟩
  · show (findWords (joinSpace ((findWords text).take n))).length ≤ n
    rw [findWords_join ((findWords text).take n)
      (fun w hw => findWords_sound text w (List.take_subset n _ hw))]
    rw [List.length_take]
    exact Nat.min_le_left n _
  · show sentenceCount (joinSpace ((sentSplit (pyStrip text)).take n)) ≤ n
    cases hs0 : pyStrip text with
    | nil =>
      have h1 : sentSplit ([] : List Char) = [[]] := rfl
      rw [h1]
      cases n with
      | zero => decide
      | succ n =>
        have h2 : ([[]] : List (List Char)).take (n + 1) = [[]] := by simp
        rw [h2]
        have h3 : joinSpace [[]] = [] := rfl
        rw [h3]
        have h4 : sentenceCount [] = 0 := rfl
        rw [h4]
        exact Nat.zero_le _
    | cons c cs =>
      have hlast : lastOk (c :: cs) = true := by
        have h := lastOk_pyStrip text
        rw [hs0] at h
        exact h
      have hgood : goodSegs (sentSplit (c :: cs)) = true :=
        sentSplitF_goodSegs (c :: cs).length (c :: cs) le_rfl (by simp) hlast
      have hgtake : goodSegs ((sentSplit (c :: cs)).take n) = true :=
        goodSegs_take _ n hgood
      cases htk : (sentSplit (c :: cs)).take n with
      | nil =>
        have h0 : sentenceCount (joinSpace ([] : List (List Char))) = 0 := rfl
        rw [h0]
        exact Nat.zero_le n
      | cons w r =>
        rw [htk] at hgtake
        have hjoin := sentSplit_join (w :: r) (by simp) hgtake
        unfold sentenceCount
        rw [hjoin]
        rw [filter_of_goodSegs _ hgtake]
        have hlen : (w :: r).length = ((sentSplit (c :: cs)).take n).length := by
          rw [htk]
        rw [hlen, List.length_take]
        exact Nat.min_le_left n _
  · show joinSpace ((findWords []).take n) = []
    rw [show findWords [] = [] from rfl, List.take_nil]
    rfl
  · cases n with
    | zero => rfl
    | succ n =>
      show joinSpace (([] : List Char) :: List.take n []) = []
      rw [List.take_nil]
      rfl

end AiSearchDupes
